import Mathlib

/-!
# Verification of the magnet-player backend against its specification

Shallow embedding of the Go backend of the magnet-player repository
(`backend/api/handler.go`, `backend/torrent/client.go`,
`backend/service/torrent_service.go`, `backend/db/torrent_store.go`,
`backend/validator/validator.go`) together with theorems settling the
frozen claims about the natural-language specification.

Strings from the Go side are embedded as `List Char`; machine integers
(`int64`) as `Int` with the explicit clamping that `strconv.ParseInt`
performs; `float32` progress values as exact rationals (the rational
value that the floating division approximates); fallible operations
return `Option`/`Except`-shaped results.
-/

namespace MagnetPlayer

/-! ## Go standard-library primitives used by the backend -/

/-- `strings.TrimPrefix(s, pre)`: drops `pre` when it is a prefix of `s`,
otherwise returns `s` unchanged. -/
def goTrimPrefixFn (pre s : List Char) : List Char :=
  if pre.isPrefixOf s then s.drop pre.length else s

/-- `strings.Split(s, sep)` for a single-character separator: splits around
every occurrence of `sep`; always returns at least one (possibly empty)
fragment. -/
def goSplit (sep : Char) : List Char → List (List Char)
  | [] => [[]]
  | c :: rest =>
    match goSplit sep rest with
    | [] => [[]]
    | g :: gs => if c = sep then [] :: g :: gs else (c :: g) :: gs

/-- Decimal value of a digit run; `none` when the run is empty or some
character is not an ASCII digit (this is `strconv`'s syntax-error
condition). -/
def decDigits (s : List Char) : Option Nat :=
  if s = [] ∨ ¬ s.all Char.isDigit then none
  else some (s.foldl (fun acc c => acc * 10 + (c.toNat - '0'.toNat)) 0)

/-- `strconv.ParseInt(s, 10, 64)` with the returned value and a success
flag. Go returns `0` on a syntax error and the clamped extreme
(`math.MaxInt64` / `math.MinInt64`) on a range error; both come with
`ok = false`. -/
def goParseInt64E (s : List Char) : Int × Bool :=
  match s with
  | [] => (0, false)
  | _ =>
    let signed : Bool × List Char :=
      match s with
      | '-' :: rest => (true, rest)
      | '+' :: rest => (false, rest)
      | _ => (false, s)
    match decDigits signed.2 with
    | none => (0, false)
    | some n =>
      if signed.1 then
        if (n : Int) > 2 ^ 63 then (-(2 ^ 63), false) else (-(n : Int), true)
      else
        if (n : Int) ≥ 2 ^ 63 then (2 ^ 63 - 1, false) else ((n : Int), true)

/-- The value component of `strconv.ParseInt` when the caller discards the
error, as `StreamFile` does with `start, _ = strconv.ParseInt(...)`. -/
def goParseInt64 (s : List Char) : Int := (goParseInt64E s).1

/-! ## `Handler.StreamFile` (backend/api/handler.go)

The handler resolves the torrent and file, then serves the byte range.
The part the claims are about is the range handling given the resolved
file; we embed it as a function of the file's bytes and the `Range`
header (the empty header models an absent header, exactly what
`r.Header.Get("Range")` yields then). The `anacrolix` reader is modelled
by its documented behaviour on an in-memory file: `NewReader` starts at
offset 0, `Seek(start, io.SeekStart)` moves the cursor, `io.CopyN(w, r, n)`
copies `min n (remaining)` bytes (none when `n ≤ 0`), `io.Copy` copies
the remainder. -/

/-- Observable outcome of `StreamFile`'s range-serving tail: HTTP status,
the `Content-Range` header when set (start, end, total), the final
`Content-Length` header value, the cursor the reader was positioned at,
and the bytes written to the response body. -/
structure StreamOut where
  status : Nat
  contentRange : Option (Int × Int × Int)
  contentLength : Int
  acceptRanges : Bool
  seekOffset : Int
  body : List Nat
  deriving Repr, DecidableEq

/-- The range-serving tail of `StreamFile` (handler.go lines 268–305)
after `start` and `end` have been extracted from the header: clamp
`end`, emit the partial-content headers and status 206, seek when
`start > 0`, then `io.CopyN` exactly `end-start+1` bytes when
`end > 0` and `io.Copy` the rest of the file otherwise. -/
def streamRange (file : List Nat) (start e0 : Int) : StreamOut :=
  let L : Int := (file.length : Int)
  let e := if e0 ≥ L then L - 1 else e0
  let cursor : Int := if start > 0 then start else 0
  let rest := file.drop cursor.toNat
  { status := 206, contentRange := some (start, e, L),
    contentLength := e - start + 1, acceptRanges := true,
    seekOffset := cursor,
    body := if e > 0 then rest.take (e - start + 1).toNat else rest }

/-- `Handler.StreamFile` range logic (handler.go lines 248–311) applied
to a resolved file with contents `file` and request header `header`
(`[]` = no `Range` header, exactly what `r.Header.Get` yields then):
strip `bytes=`, split on `-`, parse both fields discarding errors
(fields stay `0` unless the split has exactly two parts), then serve. -/
def streamFile (file : List Nat) (header : List Char) : StreamOut :=
  if header = [] then
    { status := 200, contentRange := none,
      contentLength := (file.length : Int),
      acceptRanges := true, seekOffset := 0, body := file }
  else
    match goSplit '-' (goTrimPrefixFn "bytes=".data header) with
    | [p0, p1] =>
      streamRange file (goParseInt64 p0)
        (if p1 ≠ [] then goParseInt64 p1 else (file.length : Int) - 1)
    | _ => streamRange file 0 0

/-! ## Validators (backend/validator/validator.go) -/

/-- The character class of the regular expression `[a-fA-F0-9]`. -/
def isHexChar (c : Char) : Bool :=
  ('a' ≤ c ∧ c ≤ 'f') ∨ ('A' ≤ c ∧ c ≤ 'F') ∨ ('0' ≤ c ∧ c ≤ '9')

/-- The character class of the regular expression `[A-Z2-7]`. -/
def isBase32Char (c : Char) : Bool :=
  ('A' ≤ c ∧ c ≤ 'Z') ∨ ('2' ≤ c ∧ c ≤ '7')

/-- `MagnetValidator.validateInfoHash` (validator.go lines 85–104):
`true` means the hash is accepted (`nil` error). Both regexes are
anchored and of fixed width equal to the length already tested, so they
reduce to a character-class check; non-ASCII inputs fail the length test
or the class check in both the byte-level original and this rune-level
embedding. -/
def validateInfoHash (hash : List Char) : Bool :=
  if hash.length = 40 then hash.all isHexChar
  else if hash.length = 32 then hash.all isBase32Char
  else false

/-- The characters of the `dangerousChars` list in
`FilePathValidator.ValidateFilePath`. -/
def dangerousChars : List Char := ['<', '>', ':', '\"', '|', '?', '*']

/-- `FilePathValidator.ValidateFilePath` (validator.go lines 110–134):
`true` means the path is accepted (`nil` error). The original tests, in
order: empty; `strings.Contains(filePath, "..")`; leading `/` or
`strings.Contains(filePath, ":")`; each dangerous character. -/
def validateFilePath (p : List Char) : Bool :=
  if p = [] then false
  else if "..".data <:+: p then false
  else if "/".data.isPrefixOf p ∨ ':' ∈ p then false
  else if ∃ c ∈ dangerousChars, c ∈ p then false
  else true

/-! ## Torrent client (backend/torrent/client.go) -/

/-- Accumulator walk behind `goExt`, over the reversed path: stop with no
extension at a path separator, return the suffix at the first dot. -/
def goExtAux (acc : List Char) : List Char → List Char
  | [] => []
  | c :: rest =>
    if c = '/' then []
    else if c = '.' then '.' :: acc
    else goExtAux (c :: acc) rest

/-- `filepath.Ext(path)`: the suffix beginning at the final dot in the
final element of `path`, empty when there is no dot. -/
def goExt (p : List Char) : List Char := goExtAux [] p.reverse

/-- The keys of the `videoExts` map in `isVideoFile` (client.go
lines 319–339). -/
def videoExts : List (List Char) :=
  [".mp4".data, ".mkv".data, ".avi".data, ".mov".data, ".wmv".data,
   ".flv".data, ".webm".data, ".m4v".data, ".mpg".data, ".mpeg".data,
   ".3gp".data, ".rmvb".data, ".ts".data, ".m2ts".data]

/-- `isVideoFile(ext)`: map lookup in `videoExts`. -/
def isVideoFile (ext : List Char) : Bool := videoExts.contains ext

/-- One file of a torrent as the `anacrolix` library presents it:
`DisplayPath()`, `Length()`, `BytesCompleted()`. -/
structure TorrentFile where
  path : List Char
  length : Int
  bytesCompleted : Int
  deriving Repr, DecidableEq

/-- The progress computation of `ListFiles` (client.go lines 219–226),
with the `float32` quotient taken exactly in `ℚ`. -/
def fileProgress (bytesCompleted length : Int) : ℚ :=
  if length > 0 then (bytesCompleted : ℚ) / (length : ℚ) else 0

/-- The `isPlayable` computation of `ListFiles` (client.go
lines 228–240). Note the small-file branch overwrites, rather than
extends, the first assignment. `strings.ToLower` is applied to the
ASCII extension. -/
def listFilesPlayable (f : TorrentFile) : Bool :=
  let ext := (goExt f.path).map Char.toLower
  let isVideo := isVideoFile ext
  if isVideo then
    let progress := fileProgress f.bytesCompleted f.length
    let base := decide (progress ≥ 5 / 100) ||
      decide (f.bytesCompleted ≥ 5 * 1024 * 1024)
    if f.length < 10 * 1024 * 1024 then decide (progress ≥ 2 / 100) else base
  else false

/-- Wire-form file entry (`torrent.FileInfo`). -/
structure FileInfo where
  path : List Char
  length : Int
  progress : ℚ
  fileIndex : Nat
  torrentID : List Char
  isVideo : Bool
  isPlayable : Bool
  deriving Repr, DecidableEq

/-- The entry `ListFiles` appends for file `f` at index `i` of torrent
`infoHash` (client.go lines 214–251). -/
def mkFileInfo (infoHash : List Char) (i : Nat) (f : TorrentFile) : FileInfo :=
  { path := f.path
    length := f.length
    progress := fileProgress f.bytesCompleted f.length
    fileIndex := i
    torrentID := infoHash
    isVideo := isVideoFile ((goExt f.path).map Char.toLower)
    isPlayable := listFilesPlayable f }

/-- Metadata of a torrent, present exactly when the library's `Info()`
is non-nil. -/
structure TorrentMeta where
  isDir : Bool
  deriving Repr, DecidableEq

/-- In-memory torrent handle (`*torrent.Torrent`) as the client code
observes it: `InfoHash().String()`, `Info()` (nil ↔ `none`), `Files()`. -/
structure Handle where
  infoHash : List Char
  info : Option TorrentMeta
  files : List TorrentFile
  deriving Repr, DecidableEq

/-- The client's `torrents` map, `map[string]*torrent.Torrent`. -/
def HandleMap := List (List Char × Handle)

/-- Map lookup `t, ok := c.torrents[infoHash]`. -/
def mapLookup (m : HandleMap) (ih : List Char) : Option Handle :=
  match m with
  | [] => none
  | (k, v) :: rest => if k = ih then some v else mapLookup rest ih

/-- Map assignment `c.torrents[infoHash] = t`. -/
def mapInsert (m : HandleMap) (ih : List Char) (t : Handle) : HandleMap :=
  match m with
  | [] => [(ih, t)]
  | (k, v) :: rest =>
    if k = ih then (k, t) :: rest else (k, v) :: mapInsert rest ih t

/-- Outcome of `Client.ListFiles`: the `nilInfoDeref` constructor marks
the execution that calls `IsDir()` on a nil `Info()` — the dereference
the safety claim is about. -/
inductive ListFilesOutcome where
  | nilInfoDeref
  | notFound
  | metadataIncomplete
  | ok (files : List FileInfo)
  deriving Repr, DecidableEq

/-- `Client.ListFiles` (client.go lines 196–254). -/
def clientListFiles (m : HandleMap) (ih : List Char) : ListFilesOutcome :=
  match mapLookup m ih with
  | none => .notFound
  | some t =>
    match t.info with
    | none => .nilInfoDeref
    | some info =>
      if ¬ info.isDir ∧ t.files = [] then .metadataIncomplete
      else .ok (t.files.enum.map fun p => mkFileInfo ih p.1 p.2)

/-- `Client.AddMagnet` (client.go lines 89–159) as a state transformer on
the `torrents` map. The environment supplies `lib` (the handle the
library returns, `none` when `client.AddMagnet` errors) and
`gotInfoInTime` (whether `GotInfo()` fired before the 30 s timer). The
handle is stored only on the success path, which runs after the
`t.Info() == nil` guard. -/
def clientAddMagnet (m : HandleMap) (uri : List Char) (lib : Option Handle)
    (gotInfoInTime : Bool) : HandleMap × Option (List Char) :=
  if ¬ "magnet:?".data.isPrefixOf uri then
    (m, some "invalid magnet URI format".data)
  else
    match lib with
    | none => (m, some "library error".data)
    | some t =>
      if ¬ gotInfoInTime then
        (m, some "timeout waiting for torrent metadata".data)
      else
        match t.info with
        | none => (m, some "failed to get torrent info".data)
        | some _ => (mapInsert m t.infoHash t, none)

/-- One observable mutation of the client's `torrents` map. `AddMagnet`
is the only writer in client.go; `GetTorrent`, `ListTorrents` and
`ListFiles` only read under the same lock. -/
inductive ClientStep : HandleMap → HandleMap → Prop
  | addMagnet (m : HandleMap) (uri : List Char) (lib : Option Handle)
      (gotInfoInTime : Bool) :
      ClientStep m (clientAddMagnet m uri lib gotInfoInTime).1

/-- Map states reachable from the fresh client
(`torrents: make(map[string]*torrent.Torrent)`). -/
inductive ClientReachable : HandleMap → Prop
  | init : ClientReachable []
  | step {m m' : HandleMap} : ClientReachable m → ClientStep m m' →
      ClientReachable m'

/-! ## Catalog store (backend/db/torrent_store.go) -/

/-- Enrichment payload (`db.MovieDetails`), kept to representative
fields; the store treats it as one opaque serialized column value. -/
structure MovieDetails where
  filename : List Char
  year : Int
  overview : List Char
  deriving Repr, DecidableEq

/-- `db.TorrentRecord`, the argument shape of the store operations. -/
structure TorrentRecord where
  infoHash : List Char
  name : List Char
  length : Int
  files : List FileInfo
  downloaded : Int
  progress : ℚ
  state : List Char
  magnetURI : List Char
  addedAt : Int
  dataPath : List Char
  movieDetails : Option MovieDetails
  createdAt : Int
  updatedAt : Int
  deriving Repr, DecidableEq

/-- One row of the `torrents` table: columns `info_hash, name,
magnet_uri, added_at, data_path, length, files, downloaded, progress,
state, movie_details, created_at, updated_at`. The two JSON-text columns
hold the marshalled values. -/
structure Row where
  infoHash : List Char
  name : List Char
  magnetURI : List Char
  addedAt : Int
  dataPath : List Char
  length : Int
  files : List FileInfo
  downloaded : Int
  progress : ℚ
  state : List Char
  movieDetails : Option MovieDetails
  createdAt : Int
  updatedAt : Int
  deriving Repr, DecidableEq

/-- `TorrentStore.UpdateTorrentMovieDetail` (torrent_store.go
lines 426–456): existence check by primary key, then
`UPDATE torrents SET name, magnet_uri, added_at, data_path, length,
movie_details, downloaded, progress, state WHERE info_hash = ?`.
The `files`, `created_at` and `updated_at` columns are absent from the
SET list and keep their stored values. -/
def updateTorrentMovieDetail (rows : List Row) (rec : TorrentRecord) :
    Except (List Char) (List Row) :=
  if rows.all (fun r => decide (r.infoHash ≠ rec.infoHash)) then
    .error "torrent does not exist".data
  else
    .ok (rows.map fun r =>
      if r.infoHash = rec.infoHash then
        { r with
          name := rec.name
          magnetURI := rec.magnetURI
          addedAt := rec.addedAt
          dataPath := rec.dataPath
          length := rec.length
          movieDetails := rec.movieDetails
          downloaded := rec.downloaded
          progress := rec.progress
          state := rec.state }
      else r)

/-! ## Service layer (backend/service/torrent_service.go) -/

/-- The fields of `torrent.TorrentInfo` that `TorrentService.AddMagnet`
reads when building the catalog record. -/
structure TorrentInfoS where
  infoHash : List Char
  name : List Char
  length : Int
  progress : ℚ
  state : List Char
  addedAt : Int
  deriving Repr, DecidableEq

/-- Observable outcome of `TorrentService.AddMagnet`: the returned
value/error pair, the record handed to `store.AddTorrent` (if reached),
and whether the persistence warning was logged. -/
structure ServiceAddOut where
  result : Option TorrentInfoS
  err : Option (List Char)
  savedRecord : Option TorrentRecord
  warnLogged : Bool
  deriving Repr, DecidableEq

/-- `TorrentService.AddMagnet` (torrent_service.go lines 30–59). The
torrent session and the store are the two effectful collaborators:
`session` is what `torrentClient.AddMagnet` returns (`none` = error) and
`storeOk` is whether `torrentStore.AddTorrent` succeeds. -/
def serviceAddMagnet (uri : List Char) (session : Option TorrentInfoS)
    (storeOk : Bool) : ServiceAddOut :=
  if uri = [] then
    { result := none, err := some "magnet URI must not be empty".data,
      savedRecord := none, warnLogged := false }
  else
    match session with
    | none =>
      { result := none, err := some "failed to add magnet".data,
        savedRecord := none, warnLogged := false }
    | some info =>
      let record : TorrentRecord :=
        { infoHash := info.infoHash, name := info.name,
          magnetURI := uri, addedAt := info.addedAt,
          length := info.length, progress := info.progress,
          state := info.state, files := [], downloaded := 0,
          dataPath := [], movieDetails := none,
          createdAt := 0, updatedAt := 0 }
      { result := some info, err := none, savedRecord := some record,
        warnLogged := !storeOk }

/-- `goIndexOfAux sub s i`: first position `≥ i` (counting from the
original start) where `sub` occurs in `s`. -/
def goIndexOfAux (sub : List Char) : List Char → Nat → Option Nat
  | [], i => if sub.isPrefixOf ([] : List Char) then some i else none
  | c :: t, i =>
    if sub.isPrefixOf (c :: t) then some i else goIndexOfAux sub t (i + 1)

/-- The service file's `indexOf` helper (torrent_service.go
lines 235–242): first occurrence index or `-1`. -/
def goIndexOf (s sub : List Char) : Int :=
  match goIndexOfAux sub s 0 with
  | some i => (i : Int)
  | none => -1

/-- The service file's `containsString` helper (torrent_service.go
lines 227–233), transcribed with its redundant prefix/suffix fast
paths. -/
def containsStringGo (s sub : List Char) : Bool :=
  decide (s.length ≥ sub.length) &&
    (s == sub ||
      (decide (s.length > sub.length) &&
        (sub.isPrefixOf s || sub.isSuffixOf s || decide (goIndexOf s sub ≥ 0))))

/-- The magnet URI `RestoreTorrentsFromDB` passes to `AddMagnet` for a
record: the stored URI, or a synthesized `magnet:?xt=urn:btih:` link
when the stored value does not contain `magnet:?`. -/
def restoreMagnetURI (r : TorrentRecord) : List Char :=
  if containsStringGo r.magnetURI "magnet:?".data then r.magnetURI
  else "magnet:?xt=urn:btih:".data ++ r.infoHash

/-- `TorrentService.RestoreTorrentsFromDB` (torrent_service.go
lines 182–212) as the sequence of `AddMagnet` calls it issues and the
`restoredCount` it logs. `addOk uri` is whether the session accepts the
restored link; on failure the loop `continue`s. -/
def restoreTorrents : List TorrentRecord → (List Char → Bool) →
    List (List Char) × Nat
  | [], _ => ([], 0)
  | r :: rest, addOk =>
    if r.magnetURI ≠ [] then
      let uri := restoreMagnetURI r
      let tail := restoreTorrents rest addOk
      (uri :: tail.1, (if addOk uri then 1 else 0) + tail.2)
    else restoreTorrents rest addOk

/-! ## Spec-side predicates

Definitions written from the specification's words, to be compared with
the code-derived definitions above. -/

/-- Spec C7: a hexadecimal character, either case accepted. -/
def SpecHexChar (c : Char) : Prop :=
  ('0' ≤ c ∧ c ≤ '9') ∨ ('a' ≤ c ∧ c ≤ 'f') ∨ ('A' ≤ c ∧ c ≤ 'F')

/-- Spec C7: a base32 character from `[A-Z2-7]`. -/
def SpecBase32Char (c : Char) : Prop :=
  ('A' ≤ c ∧ c ≤ 'Z') ∨ ('2' ≤ c ∧ c ≤ '7')

/-- Spec C7: the bare hash strings info-hash validation should accept:
40 hexadecimal characters or 32 base32 characters. -/
def SpecInfoHashOk (h : List Char) : Prop :=
  (h.length = 40 ∧ ∀ c ∈ h, SpecHexChar c) ∨
    (h.length = 32 ∧ ∀ c ∈ h, SpecBase32Char c)

/-- Claim C6's rejection condition as stated: empty, a path component
equal to `..`, absolute or containing `:`, or containing a
control/meta character. Components are the fragments of the
slash-separated path. -/
def ClaimC6Rejects (p : List Char) : Prop :=
  p = [] ∨ "..".data ∈ goSplit '/' p ∨ "/".data.isPrefixOf p ∨
    ':' ∈ p ∨ ∃ c ∈ dangerousChars, c ∈ p

/-- Amended C6 rejection condition: the `..` test is a substring test,
not a component test. -/
def SpecC6RejectsAmended (p : List Char) : Prop :=
  p = [] ∨ "..".data <:+: p ∨ "/".data.isPrefixOf p ∨
    ':' ∈ p ∨ ∃ c ∈ dangerousChars, c ∈ p

instance : DecidablePred ClaimC6Rejects := by
  intro p; unfold ClaimC6Rejects; infer_instance

instance : DecidablePred SpecC6RejectsAmended := by
  intro p; unfold SpecC6RejectsAmended; infer_instance

/-- Invariant of the client's `torrents` map: every stored handle has
metadata (`Info()` non-nil). -/
def handlesHaveInfo (m : HandleMap) : Prop :=
  ∀ ih t, mapLookup m ih = some t → t.info.isSome

/-- Stored row used by the C5 counterexample. -/
def c5Row : Row :=
  { infoHash := "aa".data, name := "Old Name".data,
    magnetURI := "magnet:?xt=urn:btih:aa".data, addedAt := 10,
    dataPath := "p".data, length := 99, files := [], downloaded := 5,
    progress := 1 / 2, state := "downloading".data, movieDetails := none,
    createdAt := 10, updatedAt := 10 }

/-- Update argument used by the C5 counterexample: same key, different
`name`, new enrichment. -/
def c5Rec : TorrentRecord :=
  { infoHash := "aa".data, name := "New Name".data,
    magnetURI := "magnet:?xt=urn:btih:aa".data, addedAt := 10,
    dataPath := "p".data, length := 99, files := [], downloaded := 5,
    progress := 1 / 2, state := "downloading".data,
    movieDetails := some ⟨"film".data, 2001, "plot".data⟩,
    createdAt := 0, updatedAt := 77 }

/-- The row actually stored after the C5 update: the stored row with the
new `name` and the new enrichment, `updatedAt` untouched. -/
def c5RowAfter : Row :=
  { c5Row with
      name := "New Name".data
      movieDetails := some ⟨"film".data, 2001, "plot".data⟩ }

/-- A concrete handle (metadata present) for the C4 witness. -/
def c4Handle : Handle :=
  { infoHash := "aa".data, info := some ⟨false⟩,
    files := [⟨"a.mp4".data, 100, 50⟩] }

/-- Spec C3: a file is playable when it is a video and any one of
`progress ≥ 5%`, `bytesCompleted ≥ 5 MiB`, or (for files smaller than
10 MiB) `progress ≥ 2%` holds. -/
def SpecPlayable (f : TorrentFile) : Prop :=
  isVideoFile ((goExt f.path).map Char.toLower) = true ∧
    (fileProgress f.bytesCompleted f.length ≥ 5 / 100 ∨
      f.bytesCompleted ≥ 5 * 1024 * 1024 ∨
      (f.length < 10 * 1024 * 1024 ∧
        fileProgress f.bytesCompleted f.length ≥ 2 / 100))

/-! ## Claim C7 -/

/-- C7. For every bare hash string, info-hash validation accepts it
exactly when it is 40 hexadecimal characters (either case) or
32 base32 characters from `[A-Z2-7]`; any other length or character
set is rejected. -/
theorem validateInfoHash_iff_spec (h : List Char) :
    validateInfoHash h = true ↔ SpecInfoHashOk h := by
  have hx : ∀ c, isHexChar c = true ↔ SpecHexChar c := fun c => by
    simp only [isHexChar, SpecHexChar, decide_eq_true_eq]
    tauto
  have hb : ∀ c, isBase32Char c = true ↔ SpecBase32Char c := fun c => by
    simp [isBase32Char, SpecBase32Char]
  unfold validateInfoHash SpecInfoHashOk
  by_cases h40 : h.length = 40
  · rw [if_pos h40, List.all_eq_true]
    constructor
    · intro hall; exact Or.inl ⟨h40, fun c hc => (hx c).1 (hall c hc)⟩
    · rintro (⟨_, hall⟩ | ⟨h32, _⟩)
      · exact fun c hc => (hx c).2 (hall c hc)
      · omega
  · rw [if_neg h40]
    by_cases h32 : h.length = 32
    · rw [if_pos h32, List.all_eq_true]
      constructor
      · intro hall; exact Or.inr ⟨h32, fun c hc => (hb c).1 (hall c hc)⟩
      · rintro (⟨h40', _⟩ | ⟨_, hall⟩)
        · omega
        · exact fun c hc => (hb c).2 (hall c hc)
    · rw [if_neg h32]
      refine iff_of_false (by simp) ?_
      rintro (⟨h', _⟩ | ⟨h', _⟩) <;> omega

/-! ## Claim C6 (corrected) -/

/-- C6 counterexample: `a..b` has no path component equal to `..`, is
relative, and contains no `:` or meta character, so the claim as stated
accepts it; the validator rejects it because it tests `..` as a
substring. -/
theorem validateFilePath_claim_counterexample :
    validateFilePath "a..b".data = false ∧ ¬ ClaimC6Rejects "a..b".data := by
  constructor
  · decide
  · decide

/-- C6 amended: validation rejects a path exactly when it is empty,
contains `..` as a substring (not merely as a full component), is
absolute or contains `:`, or contains one of `< > : " | ? *`; every
other path is accepted. -/
theorem validateFilePath_iff_spec_amended (p : List Char) :
    validateFilePath p = false ↔ SpecC6RejectsAmended p := by
  unfold validateFilePath SpecC6RejectsAmended
  by_cases h0 : p = []
  · simp [h0]
  · rw [if_neg h0]
    by_cases h1 : "..".data <:+: p
    · rw [if_pos h1]
      exact iff_of_true rfl (Or.inr (Or.inl h1))
    · rw [if_neg h1]
      by_cases h2 : "/".data.isPrefixOf p ∨ ':' ∈ p
      · rw [if_pos h2]
        refine iff_of_true rfl (h2.elim
          (fun ha => Or.inr (Or.inr (Or.inl ha)))
          (fun hb => Or.inr (Or.inr (Or.inr (Or.inl hb)))))
      · rw [if_neg h2]
        by_cases h3 : ∃ c ∈ dangerousChars, c ∈ p
        · rw [if_pos h3]
          exact iff_of_true rfl
            (Or.inr (Or.inr (Or.inr (Or.inr h3))))
        · rw [if_neg h3]
          refine iff_of_false (by simp) ?_
          rintro (h | h | h | h | h)
          · exact h0 h
          · exact h1 h
          · exact h2 (Or.inl h)
          · exact h2 (Or.inr h)
          · exact h3 h

/-! ## Claim C8 -/

/-- C8. When the torrent session accepts a magnet but the catalog write
fails, `TorrentService.AddMagnet` still returns the torrent info with no
error: the persistence failure is only logged (as a warning) and never
propagated. -/
theorem serviceAddMagnet_store_failure_nonfatal (uri : List Char)
    (info : TorrentInfoS) (h : uri ≠ []) :
    (serviceAddMagnet uri (some info) false).result = some info ∧
      (serviceAddMagnet uri (some info) false).err = none ∧
      (serviceAddMagnet uri (some info) false).warnLogged = true := by
  unfold serviceAddMagnet
  rw [if_neg h]
  exact ⟨rfl, rfl, rfl⟩

/-- Witness for C8 at a concrete call. -/
theorem serviceAddMagnet_store_failure_nonfatal_witness :
    (serviceAddMagnet "magnet:?xt=urn:btih:aa".data
        (some ⟨"aa".data, "film".data, 100, 0, "downloading".data, 7⟩)
        false).result =
      some ⟨"aa".data, "film".data, 100, 0, "downloading".data, 7⟩ :=
  (serviceAddMagnet_store_failure_nonfatal "magnet:?xt=urn:btih:aa".data
    ⟨"aa".data, "film".data, 100, 0, "downloading".data, 7⟩ (by decide)).1

/-! ## Claim C9 -/

/-- C9. The startup restore calls the session's `AddMagnet` exactly for
the catalog records with a non-empty magnet URI, in order; records with
an empty magnet are skipped, and a failed `AddMagnet` (any value of the
`addOk` oracle) neither aborts the loop nor changes which records are
attempted — the attempted list does not depend on `addOk` at all. -/
theorem restoreTorrents_attempts (records : List TorrentRecord)
    (addOk : List Char → Bool) :
    (restoreTorrents records addOk).1 =
      (records.filter fun r => !(r.magnetURI == [])).map restoreMagnetURI := by
  induction records with
  | nil => rfl
  | cons r rest ih =>
    by_cases hm : r.magnetURI = []
    · simp [restoreTorrents, hm, ih, List.filter_cons]
    · simp [restoreTorrents, hm, ih, List.filter_cons]

/-! ## Claim C1 (code_bug) -/

/-- C1. The spec demands `416 Requested Range Not Satisfiable` when
`start > end` or `start ≥ length`, but `StreamFile` has no 416 path at
all: on a file of length 2 the header `Range: bytes=5-` (start 5 ≥
length 2, and start 5 > end 1) is answered `206 Partial Content` with
`Content-Range: bytes 5-1/2` and a negative `Content-Length` of `-3`,
copying nothing. -/
theorem streamFile_no_416_on_bad_range :
    streamFile [7, 9] "bytes=5-".data =
      { status := 206, contentRange := some (5, 1, 2), contentLength := -3,
        acceptRanges := true, seekOffset := 5, body := [] } ∧
      (streamFile [7, 9] "bytes=5-".data).status ≠ 416 := by
  constructor
  · rfl
  · decide

/-! ## Claim C5 (corrected) -/

/-- C5 counterexample: `UpdateTorrentMovieDetail` is not the claimed
partial update. Called with a record whose `name` differs from the
stored row, it overwrites the stored `name` (the claim says every
non-enrichment field is left unchanged), and it leaves `updatedAt` at
its old value (the claim says `updatedAt` changes). -/
theorem updateTorrentMovieDetail_not_partial :
    updateTorrentMovieDetail [c5Row] c5Rec = .ok [c5RowAfter] ∧
      c5RowAfter.name ≠ c5Row.name ∧
      c5RowAfter.updatedAt = c5Row.updatedAt := by
  exact ⟨rfl, by decide, rfl⟩

/-- C5 amended. `UpdateTorrentMovieDetail` overwrites the nine SET
columns (`name, magnet_uri, added_at, data_path, length, movie_details,
downloaded, progress, state`) of the matching row from the argument
record and leaves `files`, `createdAt` and `updatedAt` — and every other
row — unchanged; in particular `updatedAt` is not refreshed. Under the
read-modify-write pattern of its callers (argument equal to the stored
row except for `movieDetails`) the net effect is a movie-details-only
change. -/
theorem updateTorrentMovieDetail_frame (rows : List Row)
    (rec : TorrentRecord) (rows' : List Row)
    (h : updateTorrentMovieDetail rows rec = .ok rows') :
    ∀ n r r', rows.get? n = some r → rows'.get? n = some r' →
      r'.files = r.files ∧ r'.createdAt = r.createdAt ∧
      r'.updatedAt = r.updatedAt ∧
      (r.infoHash ≠ rec.infoHash → r' = r) ∧
      (r.infoHash = rec.infoHash →
        r' = { r with
               name := rec.name, magnetURI := rec.magnetURI,
               addedAt := rec.addedAt, dataPath := rec.dataPath,
               length := rec.length, movieDetails := rec.movieDetails,
               downloaded := rec.downloaded, progress := rec.progress,
               state := rec.state }) := by
  unfold updateTorrentMovieDetail at h
  by_cases hex : rows.all (fun r => decide (r.infoHash ≠ rec.infoHash))
  · rw [if_pos hex] at h; cases h
  · rw [if_neg hex] at h
    have hmap : rows' = rows.map fun r =>
        if r.infoHash = rec.infoHash then
          { r with
            name := rec.name, magnetURI := rec.magnetURI,
            addedAt := rec.addedAt, dataPath := rec.dataPath,
            length := rec.length, movieDetails := rec.movieDetails,
            downloaded := rec.downloaded, progress := rec.progress,
            state := rec.state }
        else r := by
      cases h; rfl
    intro n r r' hr hr'
    rw [hmap, List.get?_map, hr] at hr'
    simp only [Option.map_some'] at hr'
    by_cases hk : r.infoHash = rec.infoHash
    · rw [if_pos hk] at hr'
      cases hr'
      exact ⟨rfl, rfl, rfl, fun hne => absurd hk hne, fun _ => rfl⟩
    · rw [if_neg hk] at hr'
      cases hr'
      exact ⟨rfl, rfl, rfl, fun _ => rfl, fun heq => absurd heq hk⟩

/-- Witness for the amended C5 at a concrete store state. -/
theorem updateTorrentMovieDetail_frame_witness :
    c5RowAfter.updatedAt = c5Row.updatedAt ∧
      c5RowAfter.files = c5Row.files := by
  have h := updateTorrentMovieDetail_frame [c5Row] c5Rec [c5RowAfter]
    rfl 0 c5Row c5RowAfter rfl rfl
  exact ⟨h.2.2.1, h.1⟩

/-! ## Claim C4 -/

theorem mapLookup_mapInsert (m : HandleMap) (k : List Char) (v : Handle)
    (j : List Char) :
    mapLookup (mapInsert m k v) j = if k = j then some v else mapLookup m j := by
  induction m with
  | nil => simp only [mapInsert, mapLookup]
  | cons kv rest ih =>
    obtain ⟨k', v'⟩ := kv
    by_cases h1 : k' = k
    · subst h1
      by_cases h2 : k' = j
      · subst h2
        simp [mapInsert, mapLookup]
      · simp [mapInsert, mapLookup, h2]
    · by_cases h2 : k' = j
      · subst h2
        have hkj : ¬ k = k' := fun hk => h1 hk.symm
        simp [mapInsert, mapLookup, h1, hkj]
      · simp [mapInsert, mapLookup, h1, h2, ih]

theorem clientAddMagnet_preserves_info (m : HandleMap) (uri : List Char)
    (lib : Option Handle) (got : Bool) (hm : handlesHaveInfo m) :
    handlesHaveInfo (clientAddMagnet m uri lib got).1 := by
  unfold clientAddMagnet
  split
  · exact hm
  · split
    · exact hm
    · split
      · exact hm
      · split
        · exact hm
        · rename_i meta hinfo
          intro ih u hl
          rw [mapLookup_mapInsert] at hl
          split at hl
          · cases hl
            rw [hinfo]; rfl
          · exact hm ih u hl

theorem clientReachable_handlesHaveInfo {m : HandleMap}
    (h : ClientReachable m) : handlesHaveInfo m := by
  induction h with
  | init => intro ih t hl; cases hl
  | step _ st ih =>
    cases st with
    | addMagnet uri lib got => exact clientAddMagnet_preserves_info _ uri lib got ih

/-- C4. In every reachable state of the client's torrent map,
`ListFiles` never reaches the `t.Info()` dereference with nil metadata:
`AddMagnet` inserts a handle only after `GotInfo()` fired and the
explicit `t.Info() == nil` guard passed, so every stored handle carries
metadata. -/
theorem clientListFiles_never_nil_deref (m : HandleMap)
    (h : ClientReachable m) (ih : List Char) :
    clientListFiles m ih ≠ .nilInfoDeref := by
  have hinv := clientReachable_handlesHaveInfo h
  unfold clientListFiles
  split
  · intro hc; cases hc
  · rename_i t hl
    split
    · rename_i hinfo
      have hs := hinv ih t hl
      rw [hinfo] at hs
      cases hs
    · split
      · intro hc; cases hc
      · intro hc; cases hc

/-- Witness for C4 at a concrete reachable state: the state after one
successful `AddMagnet`. -/
theorem clientListFiles_never_nil_deref_witness :
    clientListFiles
        (clientAddMagnet [] "magnet:?xt=urn:btih:aa".data (some c4Handle)
          true).1 "aa".data ≠ .nilInfoDeref :=
  clientListFiles_never_nil_deref _
    (ClientReachable.step ClientReachable.init
      (ClientStep.addMagnet [] "magnet:?xt=urn:btih:aa".data (some c4Handle)
        true))
    "aa".data

/-! ## Claim C3 -/

/-- C3. For every file entry produced by `ListFiles` (the library
guarantees `0 ≤ bytesCompleted ≤ length`), `isPlayable` is true exactly
when the file is a video by extension and any one of the spec's three
threshold conditions holds. The code's small-file branch overwrites the
two base conditions with the 2 % test, but under
`bytesCompleted ≤ length` the disjunction collapses to the same value:
for a file below 10 MiB, 5 MiB completed forces progress ≥ 50 % ≥ 2 %. -/
theorem listFilesPlayable_iff_spec (f : TorrentFile)
    (h0 : 0 ≤ f.bytesCompleted) (h1 : f.bytesCompleted ≤ f.length) :
    listFilesPlayable f = true ↔ SpecPlayable f := by
  unfold listFilesPlayable SpecPlayable
  simp only []
  by_cases hv : isVideoFile ((goExt f.path).map Char.toLower) = true
  · rw [if_pos hv]
    by_cases hsmall : f.length < 10 * 1024 * 1024
    · rw [if_pos hsmall, decide_eq_true_eq]
      constructor
      · intro h2
        exact ⟨hv, Or.inr (Or.inr ⟨hsmall, h2⟩)⟩
      · rintro ⟨-, (h5 | hb | ⟨-, h2⟩)⟩
        · have : (2 : ℚ) / 100 ≤ 5 / 100 := by norm_num
          exact le_trans this h5
        · have hlpos : (0 : Int) < f.length := by omega
          unfold fileProgress
          rw [if_pos hlpos]
          have hlq : (0 : ℚ) < (f.length : ℚ) := by exact_mod_cast hlpos
          rw [ge_iff_le, div_le_div_iff (by norm_num) hlq]
          have hbq : (5 * 1024 * 1024 : ℚ) ≤ (f.bytesCompleted : ℚ) := by
            exact_mod_cast hb
          have hsq : (f.length : ℚ) < 10 * 1024 * 1024 := by
            exact_mod_cast hsmall
          linarith
        · exact h2
    · rw [if_neg hsmall]
      simp only [Bool.or_eq_true, decide_eq_true_eq]
      constructor
      · rintro (h | h)
        · exact ⟨hv, Or.inl h⟩
        · exact ⟨hv, Or.inr (Or.inl h)⟩
      · rintro ⟨-, (h | h | ⟨hs, -⟩)⟩
        · exact Or.inl h
        · exact Or.inr h
        · exact absurd hs hsmall
  · rw [if_neg hv]
    exact iff_of_false (by simp) fun ⟨h, _⟩ => hv h

/-- Witness for C3: a 20 MiB mp4 with 6 MiB completed. -/
theorem listFilesPlayable_iff_spec_witness :
    listFilesPlayable ⟨"a.mp4".data, 20 * 1024 * 1024, 6 * 1024 * 1024⟩ = true
      ↔ SpecPlayable ⟨"a.mp4".data, 20 * 1024 * 1024, 6 * 1024 * 1024⟩ :=
  listFilesPlayable_iff_spec ⟨"a.mp4".data, 20 * 1024 * 1024, 6 * 1024 * 1024⟩
    (by decide) (by decide)

/-! ## Range-header parsing lemmas -/

theorem goTrimPrefixFn_append (pre rest : List Char) :
    goTrimPrefixFn pre (pre ++ rest) = rest := by
  unfold goTrimPrefixFn
  rw [if_pos (List.isPrefixOf_iff_prefix.mpr (List.prefix_append pre rest))]
  exact List.drop_left pre rest

theorem goSplit_ne_nil (sep : Char) (s : List Char) : goSplit sep s ≠ [] := by
  induction s with
  | nil => simp [goSplit]
  | cons c t ih =>
    rw [goSplit]
    cases hgs : goSplit sep t with
    | nil => simp
    | cons g gs => by_cases hc : c = sep <;> simp [hc]

theorem goSplit_no_sep (sep : Char) (a : List Char) (h : sep ∉ a) :
    goSplit sep a = [a] := by
  induction a with
  | nil => rfl
  | cons c t ih =>
    have hc : ¬ c = sep := fun e => h (e ▸ List.mem_cons_self c t)
    have ht : sep ∉ t := fun m => h (List.mem_cons_of_mem c m)
    rw [goSplit, ih ht]
    simp [hc]

theorem goSplit_append_sep (sep : Char) (a b : List Char) (h : sep ∉ a) :
    goSplit sep (a ++ sep :: b) = a :: goSplit sep b := by
  induction a with
  | nil =>
    rw [List.nil_append, goSplit]
    cases hgs : goSplit sep b with
    | nil => exact absurd hgs (goSplit_ne_nil sep b)
    | cons g gs => simp
  | cons c t ih =>
    have hc : ¬ c = sep := fun e => h (e ▸ List.mem_cons_self c t)
    have ht : sep ∉ t := fun m => h (List.mem_cons_of_mem c m)
    rw [List.cons_append, goSplit, ih ht]
    simp [hc]

/-- Evaluating `streamFile` on a header of the shape `bytes=sS-sE` when
neither field contains a further dash: the handler serves the parsed
`(start, end)` pair. -/
theorem streamFile_split (file : List Nat) (sS sE : List Char)
    (hS : '-' ∉ sS) (hE : '-' ∉ sE) :
    streamFile file ("bytes=".data ++ (sS ++ '-' :: sE)) =
      streamRange file (goParseInt64 sS)
        (if sE ≠ [] then goParseInt64 sE else (file.length : Int) - 1) := by
  unfold streamFile
  rw [if_neg (by simp), goTrimPrefixFn_append,
    goSplit_append_sep _ _ _ hS, goSplit_no_sep _ _ hE]

/-! ## Claim C2 (corrected) -/

/-- C2 counterexample: for the valid range `bytes=0-0` (S = E = 0) on a
two-byte file, the claim demands exactly `E-S+1 = 1` body byte, but the
code's `end > 0` test routes the request to `io.Copy`, which streams the
whole file: `Content-Length` says 1 while the body carries 2 bytes. -/
theorem streamFile_range_0_0_copies_all :
    (streamFile [10, 20] "bytes=0-0".data).status = 206 ∧
      (streamFile [10, 20] "bytes=0-0".data).contentLength = 1 ∧
      (streamFile [10, 20] "bytes=0-0".data).body = [10, 20] ∧
      (streamFile [10, 20] "bytes=0-0".data).body.length ≠ 1 := by
  exact ⟨rfl, rfl, rfl, by decide⟩

/-- C2 amended. For a stream request on a file of length `L` carrying
`Range: bytes=S-E` with `0 ≤ S ≤ E`, `S < L` and — the amendment —
`min E (L-1) ≥ 1`, the handler clamps the end to `E' = min E (L-1)`,
responds 206 with `Content-Range: bytes S-E'/L`,
`Content-Length: E'-S+1` and `Accept-Ranges: bytes`, positions the
reader at offset `S`, and copies exactly `E'-S+1` bytes with body byte
`i` equal to file byte `S+i`. (When `min E (L-1) = 0` the code streams
the whole remainder of the file instead, as the counterexample shows.) -/
theorem streamFile_valid_range (file : List Nat) (S E : Nat)
    (sS sE : List Char)
    (hpS : goParseInt64E sS = ((S : Int), true)) (hmS : '-' ∉ sS)
    (hpE : goParseInt64E sE = ((E : Int), true)) (hmE : '-' ∉ sE)
    (hSL : S < file.length) (hSE : S ≤ E)
    (hE1 : 1 ≤ min (E : Int) ((file.length : Int) - 1)) :
    streamFile file ("bytes=".data ++ (sS ++ '-' :: sE)) =
      { status := 206,
        contentRange := some ((S : Int),
          min (E : Int) ((file.length : Int) - 1), (file.length : Int)),
        contentLength := min (E : Int) ((file.length : Int) - 1) - S + 1,
        acceptRanges := true, seekOffset := (S : Int),
        body := (file.drop S).take
          (min (E : Int) ((file.length : Int) - 1) - S + 1).toNat } ∧
      ((file.drop S).take
          (min (E : Int) ((file.length : Int) - 1) - S + 1).toNat).length =
        (min (E : Int) ((file.length : Int) - 1) - S + 1).toNat ∧
      ∀ i : Nat, (i : Int) ≤ min (E : Int) ((file.length : Int) - 1) - S →
        ((file.drop S).take
            (min (E : Int) ((file.length : Int) - 1) - S + 1).toNat).get? i =
          file.get? (S + i) := by
  have hnE : sE ≠ [] := by
    intro h
    rw [h] at hpE
    simp [goParseInt64E] at hpE
  refine ⟨?_, ?_, ?_⟩
  · rw [streamFile_split file sS sE hmS hmE, if_pos hnE]
    unfold goParseInt64
    rw [hpS, hpE]
    unfold streamRange
    simp only []
    have hmin : (if (E : Int) ≥ (file.length : Int)
        then (file.length : Int) - 1 else (E : Int))
        = min (E : Int) ((file.length : Int) - 1) := by
      split <;> omega
    have hcursor : (if (S : Int) > 0 then (S : Int) else 0) = (S : Int) := by
      split <;> omega
    rw [hmin, hcursor]
    have hpos : min (E : Int) ((file.length : Int) - 1) > 0 := by omega
    rw [if_pos hpos, Int.toNat_natCast]
  · rw [List.length_take, List.length_drop]
    omega
  · intro i hi
    have hiN : i < (min (E : Int) ((file.length : Int) - 1) - S + 1).toNat := by
      omega
    rw [List.get?_take hiN, List.get?_drop]

/-- Concrete header fields for the C2 witness: `bytes=1-2` on a
three-byte file. -/
theorem streamFile_valid_range_witness :
    (streamFile [5, 6, 7] ("bytes=".data ++ ("1".data ++ '-' :: "2".data))).status
      = 206 ∧
      (streamFile [5, 6, 7]
        ("bytes=".data ++ ("1".data ++ '-' :: "2".data))).body.length = 2 := by
  have h := streamFile_valid_range [5, 6, 7] 1 2 "1".data "2".data
    (by decide) (by decide) (by decide) (by decide) (by decide) (by decide)
    (by decide)
  rw [h.1]
  exact ⟨rfl, by rw [h.2.1]; decide⟩

/-! ## Claim C10 (corrected) -/

/-- C10 counterexample: `strconv.ParseInt` fails with a *range* error on
`9223372036854775808` (2^63) and then yields `math.MaxInt64`, not 0: the
request is answered 206 but positioned at offset 2^63−1, not 0, so
"any parse failure is treated as 0" is false as stated. -/
theorem streamFile_overflow_start_not_zero :
    (goParseInt64E "9223372036854775808".data).2 = false ∧
      (streamFile [1, 2, 3]
        "bytes=9223372036854775808-5".data).seekOffset =
        9223372036854775807 ∧
      (streamFile [1, 2, 3]
        "bytes=9223372036854775808-5".data).seekOffset ≠ 0 := by
  refine ⟨by decide, rfl, by decide⟩

/-- C10 amended. No Range header value is ever rejected as malformed:
every request with a non-empty Range header is answered 206. When the
start field `X` of `bytes=X-Y` fails parsing with a *syntax* error
(`ParseInt` value 0), the error is discarded, start is 0 and the
response is served from offset 0; a numerically out-of-range `X` is
instead clamped to 2^63−1 (the counterexample). -/
theorem streamFile_parse_failures_discarded :
    (∀ (file : List Nat) (header : List Char), header ≠ [] →
      (streamFile file header).status = 206) ∧
    (∀ (file : List Nat) (sX sY : List Char),
      goParseInt64E sX = (0, false) → '-' ∉ sX → '-' ∉ sY →
      (streamFile file ("bytes=".data ++ (sX ++ '-' :: sY))).status = 206 ∧
        (streamFile file ("bytes=".data ++ (sX ++ '-' :: sY))).seekOffset
          = 0) := by
  constructor
  · intro file header h
    unfold streamFile
    rw [if_neg h]
    split <;> rfl
  · intro file sX sY hp hmX hmY
    rw [streamFile_split file sX sY hmX hmY]
    unfold goParseInt64
    rw [hp]
    exact ⟨rfl, rfl⟩

/-- Witness for the amended C10: an unparsable alphabetic start field. -/
theorem streamFile_parse_failures_discarded_witness :
    (streamFile [1, 2] "x".data).status = 206 ∧
      (streamFile [1, 2, 3]
        ("bytes=".data ++ ("zz".data ++ '-' :: "5".data))).seekOffset = 0 :=
  ⟨streamFile_parse_failures_discarded.1 [1, 2] "x".data (by decide),
    (streamFile_parse_failures_discarded.2 [1, 2, 3] "zz".data "5".data
      (by decide) (by decide) (by decide)).2⟩

end MagnetPlayer
